import Mathlib

/-! Shallow embedding of the callable-resolution and specialization layer
found in loopy/kernel/function_interface.py: argument descriptors, the
positional/keyword id resolver, the three callable variants with their
specialization steps, the specialization registry with its renamer, and
the call-site rewrite mapper. Each definition is translated from the
Python source; external collaborators (target hooks, type inference,
substitution-rule machinery) appear as explicit function parameters. -/

deriving instance DecidableEq for Except

namespace Loopy

/-- Python exception kinds that the embedded code can raise. The
constructor names mirror the Python exception classes; loopyError
carries the message of the raised LoopyError. The nonterminating value
is produced only on fuel exhaustion of the embedded while loop and
corresponds to no Python behavior. -/
inductive PyErr
| keyError
| typeError
| attributeError
| assertionError
| indexError
| notImplementedError
| loopyError (msg : String)
| nonterminating
deriving DecidableEq

/-- Loopy dtypes are opaque values compared by equality. -/
inductive Dtype
| int32
| int64
| float32
| float64
| namedType (s : String)
deriving DecidableEq

/-- The numpy type name of a dtype, as used in synthesized helper names
(scalar_dtype.numpy_dtype.type.__name__ in the source). -/
def dtypeTypeString : Dtype → String
| .int32 => "int32"
| .int64 => "int64"
| .float32 => "float32"
| .float64 => "float64"
| .namedType s => s

/-- Argument identifiers: integers for positional ids (negative for
results) and strings for keyword ids. -/
inductive ArgId
| pos (i : Int)
| kw (s : String)
deriving DecidableEq

/-- Lookup in a Python dict modelled as an insertion-ordered association
list with unique keys. -/
def dictLookup {κ ν : Type} [DecidableEq κ] : List (κ × ν) → κ → Option ν
| [], _ => none
| (k, v) :: rest, k₀ => if k = k₀ then some v else dictLookup rest k₀

/-- Python dict assignment: replace the value in place when the key is
present, append the pair otherwise. -/
def dictInsert {κ ν : Type} [DecidableEq κ] : List (κ × ν) → κ → ν → List (κ × ν)
| [], k₀, v₀ => [(k₀, v₀)]
| (k, v) :: rest, k₀, v₀ => if k = k₀ then (k₀, v₀) :: rest else (k, v) :: dictInsert rest k₀ v₀

/-- Python dict subscription: the value at the key, or KeyError. -/
def pyDictGet {κ ν : Type} [DecidableEq κ] (m : List (κ × ν)) (k : κ) : Except PyErr ν :=
  match dictLookup m k with
  | some v => .ok v
  | none => .error .keyError

/-- Array dimension tags; the ArrayArgDescriptor constructor accepts
only the fixed-stride kind. -/
inductive DimTag
| fixedStride (stride : Int)
| otherTag (s : String)
deriving DecidableEq

def DimTag.isFixedStride : DimTag → Bool
| .fixedStride _ => true
| .otherTag _ => false

/-- ArrayArgDescriptor: shape, mem_scope and dim_tags of an array
argument, as stored by a successful construction. -/
structure ArrayArgDescriptor where
  shape : List Int
  mem_scope : String
  dim_tags : List DimTag
deriving DecidableEq

/-- The ArrayArgDescriptor constructor. Each argument is passed as an
Option: none models a keyword argument that the call site omitted,
which Python rejects with a TypeError because all three parameters of
the source constructor are required. The body then runs the source's
assert statements: shape, mem_scope and dim_tags are tuples and strings
by typing here, and every dim tag must be fixed-stride. -/
def mkArrayArgDescriptor (shape : Option (List Int)) (mem_scope : Option String)
    (dim_tags : Option (List DimTag)) : Except PyErr ArrayArgDescriptor :=
  match shape, mem_scope, dim_tags with
  | some sh, some ms, some dt =>
      if dt.all DimTag.isFixedStride then .ok ⟨sh, ms, dt⟩ else .error .assertionError
  | _, _, _ => .error .typeError

/-- ArrayArgDescriptor.copy from the source: reads self.dtype (an
attribute the record never stores, hence AttributeError when the dtype
keyword is omitted), defaults mem_scope and dim_tags from self, ignores
its shape parameter and re-invokes the constructor without a shape
argument. -/
def ArrayArgDescriptor.copy (d : ArrayArgDescriptor) (dtype : Option Dtype)
    (mem_scope : Option String) (shape : Option (List Int))
    (dim_tags : Option (List DimTag)) : Except PyErr ArrayArgDescriptor :=
  match dtype with
  | none => .error .attributeError
  | some _ =>
      let mem_scope := mem_scope.getD d.mem_scope
      let dim_tags := dim_tags.getD d.dim_tags
      let _ := shape
      mkArrayArgDescriptor none (some mem_scope) (some dim_tags)

/-- Argument descriptors handed to with_descrs: scalar, array, or some
unrelated object (the source raises LoopyError on the latter). -/
inductive ArgDescr
| value
| array (d : ArrayArgDescriptor)
| foreign (s : String)
deriving DecidableEq

/-- A dict from argument ids to dtypes; a none value models Python None
standing for a not-yet-known type. -/
abbrev DtypeMap := List (ArgId × Option Dtype)

/-- A dict from argument ids to argument descriptors. -/
abbrev DescrMap := List (ArgId × ArgDescr)

/-- A kernel argument: name plus the attributes this layer touches. -/
structure KArg where
  name : String
  dtype : Option Dtype := none
  shape : Option (List Int) := none
  dim_tags : Option (List DimTag) := none
deriving DecidableEq

/-- The slice of the kernel IR that this layer consumes: the kernel
name, the ordered argument declarations and the set of written variable
names (kernel.get_written_variables() of the external IR, carried here
as data). -/
structure SubKernel where
  name : String
  args : List KArg
  writtenVariables : List String
deriving DecidableEq

/-- The scan of get_kw_pos_association: arguments in declaration order,
a name outside the written set takes the next read id (0, 1, ...), a
written name takes the next write id (-1, -2, ...). -/
def kwPosLoop (written : List String) : List KArg → Int → Int →
    List (String × Int) × List (Int × String)
| [], _, _ => ([], [])
| a :: rest, readCount, writeCount =>
  if a.name ∈ written then
    ((a.name, writeCount) :: (kwPosLoop written rest readCount (writeCount - 1)).1,
     (writeCount, a.name) :: (kwPosLoop written rest readCount (writeCount - 1)).2)
  else
    ((a.name, readCount) :: (kwPosLoop written rest (readCount + 1) writeCount).1,
     (readCount, a.name) :: (kwPosLoop written rest (readCount + 1) writeCount).2)

/-- get_kw_pos_association: returns (kw_to_pos, pos_to_kw) for the
kernel's arguments. -/
def getKwPosAssociation (k : SubKernel) : List (String × Int) × List (Int × String) :=
  kwPosLoop k.writtenVariables k.args 0 (-1)

/-- An extremum-with-index reduction operator value (ArgExtOp /
_ArgExtremumReductionOperation of the external reduction library),
identified here by its comparison direction. -/
structure ArgExtOp where
  which : String
deriving DecidableEq

/-- The name carried by a ScalarCallable: either a plain string or an
extremum-with-index reduction operator value. -/
inductive FuncId
| str (s : String)
| argExt (op : ArgExtOp)
deriving DecidableEq

/-- ScalarCallable: name, the two specialization maps, and the backend
symbol set once typed. -/
structure ScalarCallable where
  name : FuncId
  arg_id_to_dtype : Option DtypeMap := none
  arg_id_to_descr : Option DescrMap := none
  name_in_target : Option String := none
deriving DecidableEq

/-- A fresh, unspecialized ScalarCallable with a plain string name. -/
def freshScalar (name : String) : ScalarCallable :=
  { name := .str name }

/-- CallableKernel: the owned subkernel, the two specialization maps and
the backend symbol. Values are built through CallableKernel.make, which
performs the constructor's renaming of the subkernel. -/
structure CallableKernel where
  subkernel : SubKernel
  arg_id_to_dtype : Option DtypeMap := none
  arg_id_to_descr : Option DescrMap := none
  name_in_target : Option String := none
deriving DecidableEq

/-- The CallableKernel constructor: when name_in_target is given, the
subkernel is renamed to it before being stored. -/
def CallableKernel.make (subkernel : SubKernel) (d1 : Option DtypeMap)
    (d2 : Option DescrMap) (nit : Option String) : CallableKernel :=
  match nit with
  | some n => ⟨{ subkernel with name := n }, d1, d2, some n⟩
  | none => ⟨subkernel, d1, d2, none⟩

/-- ManglerCallable: like ScalarCallable plus the externally supplied
function mangler, represented by an identity tag (Python compares the
stored function object by identity); the mangler's behavior is looked
up from the environment by this tag. -/
structure ManglerCallable where
  name : FuncId
  functionMangler : String
  arg_id_to_dtype : Option DtypeMap := none
  arg_id_to_descr : Option DescrMap := none
  name_in_target : Option String := none
deriving DecidableEq

/-- The result of a function mangler: the backend symbol plus the full
ordered input and output dtype lists. -/
structure MangleResult where
  targetName : String
  argDtypes : List (Option Dtype)
  resultDtypes : List (Option Dtype)

/-- Modelled from the spec: the external interfaces of section 6 that
the callable layer consumes. functionIdentifiers and targetWithTypes
are the target backend's builtin-identifier set and resolution hook,
indexDtype the kernel's index integer type, argExtResultDtypes the
reduction operator's result-type rule, inferUnknownTypes the kernel
IR's full type-inference entry point, and mangle the behavior of the
externally supplied function manglers, keyed by their identity tag. -/
structure KernelEnv where
  functionIdentifiers : List String
  targetWithTypes : ScalarCallable → DtypeMap → Option ScalarCallable
  indexDtype : Dtype
  argExtResultDtypes : Option Dtype → Option Dtype → Option Dtype × Option Dtype
  inferUnknownTypes : SubKernel → Except PyErr SubKernel
  mangle : String → FuncId → List (Option Dtype) → Option MangleResult

/-- The specialized-function re-specialization check shared by
ScalarCallable.with_types and ManglerCallable.with_types: iterate the
caller's map in insertion order; an id absent from the already-fixed
map raises KeyError (the source subscripts self.arg_id_to_dtype), a
disagreeing value raises the LoopyError, an agreeing one is skipped. -/
def checkConflicts (fixed : DtypeMap) : DtypeMap → Except PyErr Unit
| [] => .ok ()
| (k, v) :: rest =>
  match dictLookup fixed k with
  | none => .error .keyError
  | some dv =>
      if dv ≠ v then .error (.loopyError "Overwriting a specialized function is illegal")
      else checkConflicts fixed rest

/-- The numpy type name of a possibly-unknown dtype; Python None has no
numpy_dtype attribute. -/
def dtypeTypeName : Option Dtype → Except PyErr String
| none => .error .attributeError
| some d => .ok (dtypeTypeString d)

/-- ScalarCallable.with_types: the re-specialization check, then the
resolution dispatch of the source — the target hook, the indexof
family, make_tuple, the extremum-with-index operator, and the final
LoopyError for an unknown function. -/
def scalarWithTypes (env : KernelEnv) (c : ScalarCallable) (m : DtypeMap) :
    Except PyErr ScalarCallable := do
  match c.arg_id_to_dtype with
  | some fixed => checkConflicts fixed m
  | none => pure ()
  if (match c.name with
      | .str s => decide (s ∈ env.functionIdentifiers)
      | .argExt _ => false) then
    match env.targetWithTypes c m with
    | some nc => pure nc
    | none => pure c
  else if c.name = .str "indexof" ∨ c.name = .str "indexof_vec" then
    pure { c with arg_id_to_dtype := some (dictInsert m (.pos (-1)) (some env.indexDtype)) }
  else if c.name = .str "make_tuple" then
    let newMap := (List.range m.length).foldl (fun acc i =>
        match dictLookup m (.pos (Int.ofNat i)) with
        | some (some v) => dictInsert acc (.pos (-(Int.ofNat i) - 1)) (some v)
        | _ => acc) m
    pure { c with arg_id_to_dtype := some newMap, name_in_target := some "loopy_make_tuple" }
  else
    match c.name with
    | .argExt op => do
        let scalarDtype ← pyDictGet m (.pos 0)
        let indexDtype ← pyDictGet m (.pos 1)
        let (r0, r1) := env.argExtResultDtypes scalarDtype indexDtype
        let newMap := dictInsert (dictInsert m (.pos (-1)) r0) (.pos (-2)) r1
        let sName ← dtypeTypeName scalarDtype
        let iName ← dtypeTypeName indexDtype
        pure { c with
               arg_id_to_dtype := some newMap,
               name_in_target := some ("loopy_arg" ++ op.which ++ "_" ++ sName ++ "_" ++ iName ++ "_op") }
    | .str _ => .error (.loopyError "Function not present within the namespace")

/-- ScalarCallable.with_descrs: writes the -1 entry into the
caller-supplied dict in place and stores that same dict in the new
callable. The second component of the result is the caller's map as it
stands after the call (state passing makes the in-place write
explicit). -/
def scalarWithDescrs (c : ScalarCallable) (m : DescrMap) : ScalarCallable × DescrMap :=
  let m := dictInsert m (.pos (-1)) .value
  ({ c with arg_id_to_descr := some m }, m)

/-- CallableKernel.with_types: push each caller-known dtype into the
matching subkernel argument (keyword id first, else positional id via
kw_to_pos), run full type inference, and harvest every argument's dtype
back under both its keyword and positional id. -/
def callableKernelWithTypes (env : KernelEnv) (c : CallableKernel) (m : DtypeMap) :
    Except PyErr CallableKernel := do
  let (kwToPos, _posToKw) := getKwPosAssociation c.subkernel
  let newArgs ← c.subkernel.args.mapM (fun arg => do
    match dictLookup m (.kw arg.name) with
    | some v => pure { arg with dtype := v }
    | none => do
        let p ← pyDictGet kwToPos arg.name
        match dictLookup m (.pos p) with
        | some v => pure { arg with dtype := v }
        | none => pure arg)
  let specialized ← env.inferUnknownTypes { c.subkernel with args := newArgs }
  let newMap ← specialized.args.foldlM (fun (acc : DtypeMap) arg => do
      let p ← pyDictGet kwToPos arg.name
      pure (dictInsert (dictInsert acc (.kw arg.name) arg.dtype) (.pos p) arg.dtype))
    ([] : DtypeMap)
  pure (CallableKernel.make specialized (some newMap) c.arg_id_to_descr c.name_in_target)

/-- Python sequence index normalization: non-negative indexes count from
the front, negative ones from the back, anything else is IndexError. -/
def pyNormIdx (len : Nat) (i : Int) : Option Nat :=
  if 0 ≤ i ∧ i < (len : Int) then some i.toNat
  else if -(len : Int) ≤ i ∧ i < 0 then some ((len : Int) + i).toNat
  else none

/-- Python list subscription with a possibly negative index. -/
def pyListGet {α : Type} (l : List α) (i : Int) : Except PyErr α :=
  match pyNormIdx l.length i with
  | some j =>
      match l.get? j with
      | some a => .ok a
      | none => .error .indexError
  | none => .error .indexError

/-- Python list item assignment with a possibly negative index. -/
def pyListSet {α : Type} (l : List α) (i : Int) (a : α) : Except PyErr (List α) :=
  match pyNormIdx l.length i with
  | some j => .ok (l.set j a)
  | none => .error .indexError

/-- CallableKernel.with_descrs: translate keyword ids through
kw_to_pos, rewrite the indexed subkernel argument for every array
descriptor (negative ids index from the back of the argument list, as
Python list indexing does), pass value descriptors through, and raise
the LoopyError on any other descriptor kind. The caller's map is
returned unchanged alongside the new callable, which stores it. -/
def callableKernelWithDescrs (c : CallableKernel) (m : DescrMap) :
    Except PyErr (CallableKernel × DescrMap) := do
  let (kwToPos, _posToKw) := getKwPosAssociation c.subkernel
  let newArgs ← m.foldlM (fun (args : List KArg) p => do
      let i ← (match p.1 with
               | .kw s => pyDictGet kwToPos s
               | .pos i => pure i)
      match p.2 with
      | .array d => do
          let a ← pyListGet args i
          pyListSet args i { a with shape := some d.shape, dim_tags := some d.dim_tags }
      | .value => pure args
      | .foreign _ => .error (.loopyError "Descriptor must be either an instance of ArrayArgDescriptor or ValueArgDescriptor"))
    c.subkernel.args
  pure (CallableKernel.make { c.subkernel with args := newArgs }
          c.arg_id_to_dtype (some m) c.name_in_target, m)

/-- Insertion step of the integer sort used for sorted(keys). -/
def insertSorted (i : Int) : List Int → List Int
| [] => [i]
| j :: rest => if i ≤ j then i :: j :: rest else j :: insertSorted i rest

/-- Ascending sort of a list of integers, modelling Python sorted(). -/
def sortInts (l : List Int) : List Int := l.foldr insertSorted []

/-- ManglerCallable.with_types: the shared re-specialization check, then
delegation to the externally supplied mangler over the sorted
non-negative ids' dtypes; a result is unpacked into inputs 0..k-1 and
outputs -1, -2, ...; no result raises the LoopyError. A keyword id
makes sorted() compare an int with a str, a TypeError. -/
def manglerWithTypes (env : KernelEnv) (c : ManglerCallable) (m : DtypeMap) :
    Except PyErr ManglerCallable := do
  match c.arg_id_to_dtype with
  | some fixed => checkConflicts fixed m
  | none => pure ()
  let intKeys ← m.mapM (fun p =>
      match p.1 with
      | .pos i => pure i
      | .kw _ => (.error .typeError : Except PyErr Int))
  let sortedKeys := sortInts intKeys
  let argDtypes ← (sortedKeys.filter (fun i => 0 ≤ i)).mapM (fun i => pyDictGet m (.pos i))
  match env.mangle c.functionMangler c.name argDtypes with
  | some r =>
      let base : DtypeMap := r.argDtypes.enum.map (fun p => (ArgId.pos (Int.ofNat p.1), p.2))
      let newMap := r.resultDtypes.enum.foldl (fun acc p =>
          dictInsert acc (.pos (-(Int.ofNat p.1) - 1)) p.2) base
      pure { c with arg_id_to_dtype := some newMap, name_in_target := some r.targetName }
  | none => .error (.loopyError "Function not coherent with the provided types")

/-- Fueled helper for decimal formatting; the fuel only bounds the
recursion depth and any fuel above the number is enough. -/
def natDigitsAux : Nat → Nat → List Char
| 0, _ => []
| fuel + 1, n =>
  if n < 10 then [Char.ofNat (48 + n)]
  else natDigitsAux fuel (n / 10) ++ [Char.ofNat (48 + n % 10)]

/-- Decimal digits of a natural number, most significant first,
modelling Python's str formatting of an int. -/
def natDigits (n : Nat) : List Char := natDigitsAux (n + 1) n

/-- The numeric value of one decimal digit character. -/
def digitVal (c : Char) : Nat := c.toNat - 48

/-- The value of a decimal digit string, modelling Python int(). -/
def digitsToNat (l : List Char) : Nat := l.foldl (fun a c => 10 * a + digitVal c) 0

/-- Whether position p of the character list splits it as
alpha ++ [underscore] ++ digits with alpha nonempty and free of
whitespace and digits nonempty: exactly the ways the source's anchored
pattern (lazy non-space group, underscore, lazy digit group) can
match. -/
def isSplitPoint (l : List Char) (p : Nat) : Bool :=
  decide (0 < p) && decide (p + 1 < l.length) && decide (l.getD p ' ' = '_')
    && (l.take p).all (fun c => !c.isWhitespace) && (l.drop (p + 1)).all Char.isDigit

/-- The match of the source's func_name pattern against a name: the
split with the shortest alpha group, as the lazy quantifier finds it,
returning (alpha, digits). -/
def splitIndexed (l : List Char) : Option (List Char × List Char) :=
  match (List.range l.length).find? (fun p => isSplitPoint l p) with
  | some p => some (l.take p, l.drop (p + 1))
  | none => none

/-- The value next_indexed_variable receives and returns: a pymbolic
Variable, or an ArgExtOp operator value. -/
inductive FVar
| var (name : String)
| argExt (op : ArgExtOp)
deriving DecidableEq

def FVar.isArgExt : FVar → Bool
| .var _ => false
| .argExt _ => true

/-- The .name attribute of a probed value; an ArgExtOp carries none. -/
def FVar.nameOf : FVar → Except PyErr String
| .var n => .ok n
| .argExt _ => .error .attributeError

/-- next_indexed_variable: an ArgExtOp is returned as its own copy; a
matching name alpha_num becomes alpha_(num+1); otherwise append 0 when
the name already ends in an underscore, else append _0; subscripting
the last character of an empty name is an IndexError. -/
def nextIndexedVariable : FVar → Except PyErr FVar
| .argExt op => .ok (.argExt op)
| .var name =>
  match splitIndexed name.data with
  | some (alpha, ds) =>
      .ok (.var (String.mk (alpha ++ '_' :: natDigits (digitsToNat ds + 1))))
  | none =>
      match name.data.getLast? with
      | none => .error .indexError
      | some ch => .ok (.var (if ch = '_' then name ++ "0" else name ++ "_0"))

/-- The numeric suffix that the renamer's pattern reads off a probed
value, when it matches. -/
def numSuffix : FVar → Option Nat
| .argExt _ => none
| .var name => (splitIndexed name.data).map (fun pr => digitsToNat pr.2)

/-- The callable value stored by the specialization registry. -/
inductive Callable
| scalarC (c : ScalarCallable)
| kernelC (c : CallableKernel)
| manglerC (c : ManglerCallable)
deriving DecidableEq

def Callable.isKernelC : Callable → Bool
| .kernelC _ => true
| _ => false

/-- The while loop probing candidate names until one is absent from
scoped_names_to_functions, with ArgExtOp values exempt; fuel bounds the
embedded loop, and running out of it is reported as nonterminating. -/
def probeLoop : Nat → List (FVar × Callable) → FVar → Except PyErr FVar
| 0, _, _ => .error .nonterminating
| fuel + 1, names, v =>
  if (dictLookup names v).isSome && !v.isArgExt then do
    let v' ← nextIndexedVariable v
    probeLoop fuel names v'
  else .ok v

/-- The function slot of a call expression: a pymbolic Variable, a
ScopedFunction wrapping a Variable or ArgExtOp, or some other object
(which the registry rejects as not implemented). -/
inductive PyFunc
| variable (name : String)
| scoped (f : FVar)
| foreignFunc (s : String)
deriving DecidableEq

/-- The expression tree fragment this layer traverses: calls, variable
references, integer literals and sums. -/
inductive Expr
| call (fn : PyFunc) (params : List Expr)
| evar (s : String)
| lit (n : Int)
| add (a b : Expr)

mutual

/-- Decidable structural equality of expressions (spelled out because
the nested parameter list defeats the deriving handler). -/
def exprDecEq : (a b : Expr) → Decidable (a = b)
| .call f p, .call f' p' =>
  match decEq f f', exprListDecEq p p' with
  | isTrue h1, isTrue h2 => isTrue (by rw [h1, h2])
  | isFalse h1, _ => isFalse (by intro h; injection h; exact h1 (by assumption))
  | _, isFalse h2 => isFalse (by intro h; injection h; exact h2 (by assumption))
| .evar a, .evar b =>
  match decEq a b with
  | isTrue h => isTrue (by rw [h])
  | isFalse h => isFalse (by intro hh; injection hh; exact h (by assumption))
| .lit a, .lit b =>
  match decEq a b with
  | isTrue h => isTrue (by rw [h])
  | isFalse h => isFalse (by intro hh; injection hh; exact h (by assumption))
| .add a b, .add a' b' =>
  match exprDecEq a a', exprDecEq b b' with
  | isTrue h1, isTrue h2 => isTrue (by rw [h1, h2])
  | isFalse h1, _ => isFalse (by intro h; injection h; exact h1 (by assumption))
  | _, isFalse h2 => isFalse (by intro h; injection h; exact h2 (by assumption))
| .call _ _, .evar _ => isFalse (by intro h; exact Expr.noConfusion h)
| .call _ _, .lit _ => isFalse (by intro h; exact Expr.noConfusion h)
| .call _ _, .add _ _ => isFalse (by intro h; exact Expr.noConfusion h)
| .evar _, .call _ _ => isFalse (by intro h; exact Expr.noConfusion h)
| .evar _, .lit _ => isFalse (by intro h; exact Expr.noConfusion h)
| .evar _, .add _ _ => isFalse (by intro h; exact Expr.noConfusion h)
| .lit _, .call _ _ => isFalse (by intro h; exact Expr.noConfusion h)
| .lit _, .evar _ => isFalse (by intro h; exact Expr.noConfusion h)
| .lit _, .add _ _ => isFalse (by intro h; exact Expr.noConfusion h)
| .add _ _, .call _ _ => isFalse (by intro h; exact Expr.noConfusion h)
| .add _ _, .evar _ => isFalse (by intro h; exact Expr.noConfusion h)
| .add _ _, .lit _ => isFalse (by intro h; exact Expr.noConfusion h)

/-- Decidable equality of expression lists, mutual with exprDecEq. -/
def exprListDecEq : (a b : List Expr) → Decidable (a = b)
| [], [] => isTrue rfl
| [], _ :: _ => isFalse (by intro h; exact List.noConfusion h)
| _ :: _, [] => isFalse (by intro h; exact List.noConfusion h)
| a :: as, b :: bs =>
  match exprDecEq a b, exprListDecEq as bs with
  | isTrue h1, isTrue h2 => isTrue (by rw [h1, h2])
  | isFalse h1, _ => isFalse (by intro h; injection h; exact h1 (by assumption))
  | _, isFalse h2 => isFalse (by intro h; injection h; exact h2 (by assumption))

end

instance : DecidableEq Expr := exprDecEq

/-- Modelled from the spec: parse_tagged_name of the external symbolic
module reads the callee's name off the function slot (tags are not
represented here). -/
def funcName : PyFunc → String
| .variable n => n
| .scoped (.var n) => n
| .scoped (.argExt op) => "ArgExtOp:" ++ op.which
| .foreignFunc s => s

/-- The environment of ScopedFunctionNameChanger: the kernel's
substitution-rule names, the call-to-new-name map, and — modelled from
the spec — the external SubstitutionRuleExpander (substExpander) and
the RuleAwareIdentityMapper's substitution handler (mapSubstitution),
both taken as opaque functions. -/
structure NameChangerEnv where
  oldSubstRules : List String
  substExpander : Expr → Expr
  mapSubstitution : String → List Expr → Expr
  exprToNewNames : List (Expr × FVar)

mutual

/-- ScopedFunctionNameChanger.map_call together with the identity
traversal of the base mapper: a callee named by a substitution rule is
routed to the substitution handler; otherwise the call itself, then its
substitution-rule expansion, is looked up in expr_to_new_names and, on
a hit, the callee is replaced by the scoped new name while the
parameters are recursed into; with no hit the call is rebuilt
identically around the recursed parameters; non-call nodes are
rebuilt identically. -/
def changeName (env : NameChangerEnv) : Expr → Expr
| .call fn params =>
  let name := funcName fn
  if name ∈ env.oldSubstRules then
    env.mapSubstitution name params
  else
    let e := Expr.call fn params
    let expanded := env.substExpander e
    match dictLookup env.exprToNewNames e with
    | some n => .call (.scoped n) (changeNameList env params)
    | none =>
      match dictLookup env.exprToNewNames expanded with
      | some n => .call (.scoped n) (changeNameList env params)
      | none => .call fn (changeNameList env params)
| .evar s => .evar s
| .lit n => .lit n
| .add a b => .add (changeName env a) (changeName env b)

/-- The parameter-tuple recursion of the mapper. -/
def changeNameList (env : NameChangerEnv) : List Expr → List Expr
| [] => []
| e :: rest => changeName env e :: changeNameList env rest

end

/-- The three dicts that register_pymbolic_calls_to_knl_callables
builds: scoped_names_to_functions (seeded from the kernel's scoped
functions), scoped_functions_to_names, and
pymbolic_calls_to_new_names. -/
structure RegState where
  scopedNamesToFunctions : List (FVar × Callable)
  scopedFunctionsToNames : List (Callable × FVar)
  pymbolicCallsToNewNames : List (Expr × FVar)
deriving DecidableEq

/-- pymbolic_call.function unwrapped to the value handed to
next_indexed_variable: a Variable stands for itself, a ScopedFunction
for its wrapped function, anything else is NotImplementedError; a
non-call has no function attribute. -/
def callFunction : Expr → Except PyErr FVar
| .call (.variable n) _ => .ok (.var n)
| .call (.scoped f) _ => .ok f
| .call (.foreignFunc _) _ => .error .notImplementedError
| _ => .error .attributeError

/-- One iteration of the registration loop: a callable not yet named
is given the first probed name free in scoped_names_to_functions (a
CallableKernel is first rebuilt with that name as name_in_target) and
recorded in both directions; then the call is mapped to the name found
for the callable. -/
def registerStep (fuel : Nat) (st : RegState) (pc : Expr) (c : Callable) :
    Except PyErr RegState := do
  let (st, c) ←
    (if (dictLookup st.scopedFunctionsToNames c).isSome then
      pure (st, c)
    else do
      let f ← callFunction pc
      let u0 ← nextIndexedVariable f
      let u ← probeLoop fuel st.scopedNamesToFunctions u0
      let c ←
        match c with
        | .kernelC k => do
            let n ← u.nameOf
            pure (Callable.kernelC
              (CallableKernel.make k.subkernel k.arg_id_to_dtype k.arg_id_to_descr (some n)))
        | _ => pure c
      pure ({ st with
              scopedNamesToFunctions := dictInsert st.scopedNamesToFunctions u c,
              scopedFunctionsToNames := dictInsert st.scopedFunctionsToNames c u }, c))
  match dictLookup st.scopedFunctionsToNames c with
  | some n =>
      pure { st with pymbolicCallsToNewNames := dictInsert st.pymbolicCallsToNewNames pc n }
  | none => .error .keyError

/-- The name-assignment phase of register_pymbolic_calls_to_knl_callables:
fold the registration step over the call-to-callable items, starting
from the kernel's scoped functions. -/
def registerNames (fuel : Nat) (scopedFunctions : List (FVar × Callable))
    (items : List (Expr × Callable)) : Except PyErr RegState :=
  items.foldlM (fun st p => registerStep fuel st p.1 p.2)
    ⟨scopedFunctions, [], []⟩

/-- A minimal environment: no target builtin identifiers, a hook that
resolves nothing, int32 index dtype, an operator result rule that
echoes its scalar dtype, an inference step that changes nothing, and
manglers that never match. -/
def env0 : KernelEnv :=
  ⟨[], fun _ _ => none, .int32, fun a _ => (a, a), fun k => .ok k, fun _ _ _ => none⟩

/-- The spec's concrete kernel: scalar input K, array input u, written
array lap. -/
def exampleKernel : SubKernel :=
  ⟨"loop", [{ name := "K" }, { name := "u" }, { name := "lap" }], ["lap"]⟩

/-- The registry invariant used for deduplication reasoning: every name
held by scoped_functions_to_names is a key of scoped_names_to_functions,
and scoped_functions_to_names assigns a name to at most one callable. -/
def RegInv (st : RegState) : Prop :=
  (∀ c u, dictLookup st.scopedFunctionsToNames c = some u →
    (dictLookup st.scopedNamesToFunctions u).isSome = true) ∧
  (∀ c₁ c₂ u, dictLookup st.scopedFunctionsToNames c₁ = some u →
    dictLookup st.scopedFunctionsToNames c₂ = some u → c₁ = c₂)

/-- A callee subkernel for registry scenarios. -/
def calleeSubkernel : SubKernel := ⟨"callee", [{ name := "x" }], []⟩

/-- A specialized CallableKernel over the callee subkernel. -/
def calleeCallable : CallableKernel :=
  { subkernel := calleeSubkernel, arg_id_to_dtype := some [(.kw "x", some .float32)] }

/-- Two distinct call sites invoking the scoped name callee. -/
def callSiteA : Expr := .call (.scoped (.var "callee")) []

/-- Second call site; its parameter list differs from callSiteA. -/
def callSiteB : Expr := .call (.scoped (.var "callee")) [.lit 1]

/-- A specialized ScalarCallable used at two call sites. -/
def sincosCallable : Callable :=
  .scalarC { name := .str "sincos", arg_id_to_dtype := some [(.pos 0, some .float32)] }

/-- A rewrite environment with nothing tracked and no substitution
rules. -/
def idEnv : NameChangerEnv :=
  ⟨[], fun e => e, fun n ps => .call (.variable n) ps, []⟩

/-- A rewrite environment binding the name mysubst as a substitution
rule. -/
def substRuleEnv : NameChangerEnv :=
  ⟨["mysubst"], fun e => e, fun n ps => .call (.variable n) ps, []⟩

/-- A rewrite environment whose expander drops call parameters and
whose name map tracks the parameterless call of g. -/
def renameEnv : NameChangerEnv :=
  ⟨[], fun e => match e with | .call f _ => .call f [] | e => e,
   fun n ps => .call (.variable n) ps,
   [(.call (.variable "g") [], .var "g_0")]⟩

theorem dictLookup_dictInsert_self {κ ν : Type} [DecidableEq κ] (l : List (κ × ν)) (k : κ) (v : ν) :
    dictLookup (dictInsert l k v) k = some v := by
  induction l with
  | nil => simp [dictInsert, dictLookup]
  | cons p rest ih =>
      by_cases h : p.1 = k
      · simp [dictInsert, h, dictLookup]
      · simp [dictInsert, h, dictLookup, ih]

theorem dictLookup_dictInsert_ne {κ ν : Type} [DecidableEq κ] (l : List (κ × ν)) (k k₀ : κ) (v : ν)
    (h : k ≠ k₀) : dictLookup (dictInsert l k v) k₀ = dictLookup l k₀ := by
  induction l with
  | nil => simp [dictInsert, dictLookup, h]
  | cons p rest ih =>
      by_cases hp : p.1 = k
      · simp [dictInsert, hp, dictLookup, h]
      · simp [dictInsert, hp, dictLookup, ih]

theorem dictInsert_of_lookup_none {κ ν : Type} [DecidableEq κ] (l : List (κ × ν)) (k : κ) (v : ν)
    (h : dictLookup l k = none) : dictInsert l k v = l ++ [(k, v)] := by
  induction l with
  | nil => simp [dictInsert]
  | cons p rest ih =>
      by_cases hp : p.1 = k
      · simp [dictLookup, hp] at h
      · simp [dictLookup, hp] at h
        simp [dictInsert, hp, ih h]

theorem dictLookup_mem {κ ν : Type} [DecidableEq κ] (l : List (κ × ν)) (k : κ) (v : ν)
    (h : dictLookup l k = some v) : (k, v) ∈ l := by
  induction l with
  | nil => simp [dictLookup] at h
  | cons p rest ih =>
      by_cases hp : p.1 = k
      · simp [dictLookup, hp] at h
        cases p
        simp_all
      · simp [dictLookup, hp] at h
        exact List.mem_cons_of_mem _ (ih h)

theorem except_bind_ok {ε α β : Type} (x : Except ε α) (f : α → Except ε β) (b : β) :
    (x >>= f) = .ok b ↔ ∃ a, x = .ok a ∧ f a = .ok b := by
  cases x <;> simp [Bind.bind, Except.bind]

/-- C7: the claim asserts that constructing an ArrayArgDescriptor with
mismatched dim_tags and shape lengths is a fatal precondition failure;
at the concrete input shape (3,), dim_tags () the constructor in fact
succeeds, so the invariant is not checked. -/
theorem C7_counterexample :
    mkArrayArgDescriptor (some [3]) (some "GLOBAL") (some []) =
      .ok ⟨[3], "GLOBAL", []⟩ ∧
    ([3] : List Int).length ≠ ([] : List DimTag).length := by
  constructor
  · rfl
  · decide

/-- C7 (amended): construction checks only the tuple/str typing of its
arguments and that every dim tag is fixed-stride; whenever those hold
it succeeds with the given fields stored verbatim, irrespective of any
relation between the shape and dim_tags lengths. -/
theorem C7_construction_unchecked (sh : List Int) (ms : String) (dt : List DimTag)
    (h : dt.all DimTag.isFixedStride = true) :
    mkArrayArgDescriptor (some sh) (some ms) (some dt) = .ok ⟨sh, ms, dt⟩ := by
  simp [mkArrayArgDescriptor, h]

/-- C7 witness: the amended statement at a concrete mismatched input. -/
theorem C7_witness :
    mkArrayArgDescriptor (some [2, 2]) (some "LOCAL") (some [.fixedStride 1]) =
      .ok ⟨[2, 2], "LOCAL", [.fixedStride 1]⟩ :=
  C7_construction_unchecked [2, 2] "LOCAL" [.fixedStride 1] (by decide)

/-- C10: copy of a successfully constructed ArrayArgDescriptor fails on
every input — without a dtype argument it reads the absent dtype
attribute (AttributeError), and with one it re-invokes the constructor
without the required shape argument (TypeError); hence no successful
copy exists, and in particular none preserving the original's shape. -/
theorem C10_copy_always_fails (d : ArrayArgDescriptor) (ms : Option String)
    (sh : Option (List Int)) (dts : Option (List DimTag)) :
    ArrayArgDescriptor.copy d none ms sh dts = .error .attributeError ∧
    (∀ t : Dtype, ArrayArgDescriptor.copy d (some t) ms sh dts = .error .typeError) := by
  constructor
  · rfl
  · intro t
    rfl

/-- C1: evaluated at the failing input — a fresh ScalarCallable named
make_tuple specialized with the map from id 0 to int32 — with_types
returns the bare new callable, not the pair of callable and completed
map that the base-class docstring (and the claim) promise. -/
theorem C1_with_types_bare_callable :
    scalarWithTypes env0 (freshScalar "make_tuple") [(.pos 0, some .int32)] =
      .ok { name := .str "make_tuple",
            arg_id_to_dtype := some [(.pos 0, some .int32), (.pos (-1), some .int32)],
            name_in_target := some "loopy_make_tuple" } := by
  decide

/-- C8: at the concrete input of an empty descriptor map,
ScalarCallable.with_descrs leaves the caller's map changed — the -1
entry has been written into it in place. -/
theorem C8_counterexample :
    (scalarWithDescrs (freshScalar "sin") []).2 ≠ ([] : DescrMap) := by
  decide

/-- C8 (amended): with_types copies the caller's map, and
CallableKernel.with_descrs hands the caller's map back unchanged, but
ScalarCallable.with_descrs appends the -1 value-descriptor entry to the
caller-supplied map in place (so the map the caller holds afterwards
differs from the one passed in) and the new callable aliases that same
mutated map. -/
theorem C8_with_descrs_mutation (c : ScalarCallable) (m : DescrMap)
    (h : dictLookup m (.pos (-1)) = none) :
    (scalarWithDescrs c m).2 = m ++ [(.pos (-1), .value)] ∧
    (scalarWithDescrs c m).2 ≠ m ∧
    (scalarWithDescrs c m).1.arg_id_to_descr = some ((scalarWithDescrs c m).2) ∧
    (∀ (k : CallableKernel) (m' : DescrMap) res,
      callableKernelWithDescrs k m' = .ok res → res.2 = m') := by
  refine ⟨?_, ?_, rfl, ?_⟩
  · simp [scalarWithDescrs, dictInsert_of_lookup_none m _ _ h]
  · simp [scalarWithDescrs, dictInsert_of_lookup_none m _ _ h]
  · intro k m' res h'
    simp only [callableKernelWithDescrs] at h'
    rw [except_bind_ok] at h'
    obtain ⟨args, _, h2⟩ := h'
    simp [pure, Except.pure] at h2
    subst h2
    rfl

/-- C8 witness: the amended statement at a fresh callable and the empty
map. -/
theorem C8_witness :
    (scalarWithDescrs (freshScalar "cos") []).2 = [(.pos (-1), .value)] ∧
    (scalarWithDescrs (freshScalar "cos") []).2 ≠ ([] : DescrMap) :=
  ⟨(C8_with_descrs_mutation (freshScalar "cos") [] rfl).1,
   (C8_with_descrs_mutation (freshScalar "cos") [] rfl).2.1⟩

theorem checkConflicts_error_of_bad (fixed : DtypeMap) :
    ∀ m : DtypeMap, (∃ p ∈ m, dictLookup fixed p.1 ≠ some p.2) →
      ∃ e, checkConflicts fixed m = .error e := by
  intro m
  induction m with
  | nil => rintro ⟨p, hp, _⟩; simp at hp
  | cons q rest ih =>
      rintro ⟨p, hp, hbad⟩
      obtain ⟨k, v⟩ := q
      cases hl : dictLookup fixed k with
      | none => exact ⟨.keyError, by simp [checkConflicts, hl]⟩
      | some dv =>
          by_cases hv : dv = v
          · subst hv
            rw [List.mem_cons] at hp
            rcases hp with hp | hp
            · rw [hp] at hbad
              exact absurd hl hbad
            · obtain ⟨e, he⟩ := ih ⟨p, hp, hbad⟩
              exact ⟨e, by simp [checkConflicts, hl, he]⟩
          · exact ⟨.loopyError "Overwriting a specialized function is illegal",
              by simp [checkConflicts, hl, hv]⟩

theorem checkConflicts_conflict (fixed : DtypeMap) :
    ∀ m : DtypeMap, (∀ p ∈ m, (dictLookup fixed p.1).isSome = true) →
      (∃ p ∈ m, dictLookup fixed p.1 ≠ some p.2) →
      checkConflicts fixed m =
        .error (.loopyError "Overwriting a specialized function is illegal") := by
  intro m
  induction m with
  | nil => rintro _ ⟨p, hp, _⟩; simp at hp
  | cons q rest ih =>
      rintro hall ⟨p, hp, hbad⟩
      obtain ⟨k, v⟩ := q
      cases hl : dictLookup fixed k with
      | none =>
          have := hall (k, v) (by simp)
          simp [hl] at this
      | some dv =>
          by_cases hv : dv = v
          · subst hv
            rw [List.mem_cons] at hp
            rcases hp with hp | hp
            · rw [hp] at hbad
              exact absurd hl hbad
            · have := ih (fun p hp => hall p (List.mem_cons_of_mem _ hp)) ⟨p, hp, hbad⟩
              simp [checkConflicts, hl, this]
          · simp [checkConflicts, hl, hv]

theorem scalarWithTypes_error_of_check (env : KernelEnv) (c : ScalarCallable)
    (m fixed : DtypeMap) (e : PyErr) (hc : c.arg_id_to_dtype = some fixed)
    (hck : checkConflicts fixed m = .error e) :
    scalarWithTypes env c m = .error e := by
  simp [scalarWithTypes, hc, hck, Bind.bind, Except.bind]

theorem manglerWithTypes_error_of_check (env : KernelEnv) (c : ManglerCallable)
    (m fixed : DtypeMap) (e : PyErr) (hc : c.arg_id_to_dtype = some fixed)
    (hck : checkConflicts fixed m = .error e) :
    manglerWithTypes env c m = .error e := by
  simp [manglerWithTypes, hc, hck, Bind.bind, Except.bind]

/-- C2: at the concrete input of a ScalarCallable already fixed at
id 0 to int32 and the caller map listing id 1 (absent from the fixed
map) before a genuinely conflicting id 0, the call fails with KeyError,
not with the ConflictingSpecialization LoopyError the claim names. -/
theorem C2_counterexample :
    scalarWithTypes env0
      { name := .str "foo", arg_id_to_dtype := some [(.pos 0, some .int32)] }
      [(.pos 1, some .float64), (.pos 0, some .float64)] = .error .keyError ∧
    PyErr.keyError ≠ .loopyError "Overwriting a specialized function is illegal" := by
  constructor
  · decide
  · decide

/-- C2 (amended): re-specializing an already-specialized ScalarCallable
or ManglerCallable with a map that disagrees on some previously fixed
id always fails, never silently overwriting; the failure carries the
ConflictingSpecialization message whenever every id of the caller's map
is present in the fixed map (an id absent from it can surface as a
KeyError instead). -/
theorem C2_conflict_specialization :
    (∀ (env : KernelEnv) (c : ScalarCallable) (m fixed : DtypeMap),
      c.arg_id_to_dtype = some fixed →
      (∀ p ∈ m, (dictLookup fixed p.1).isSome = true) →
      (∃ p ∈ m, dictLookup fixed p.1 ≠ some p.2) →
      scalarWithTypes env c m =
        .error (.loopyError "Overwriting a specialized function is illegal")) ∧
    (∀ (env : KernelEnv) (c : ManglerCallable) (m fixed : DtypeMap),
      c.arg_id_to_dtype = some fixed →
      (∀ p ∈ m, (dictLookup fixed p.1).isSome = true) →
      (∃ p ∈ m, dictLookup fixed p.1 ≠ some p.2) →
      manglerWithTypes env c m =
        .error (.loopyError "Overwriting a specialized function is illegal")) ∧
    (∀ (env : KernelEnv) (c : ScalarCallable) (m fixed : DtypeMap),
      c.arg_id_to_dtype = some fixed →
      (∃ p ∈ m, dictLookup fixed p.1 ≠ some p.2) →
      ∃ e, scalarWithTypes env c m = .error e) ∧
    (∀ (env : KernelEnv) (c : ManglerCallable) (m fixed : DtypeMap),
      c.arg_id_to_dtype = some fixed →
      (∃ p ∈ m, dictLookup fixed p.1 ≠ some p.2) →
      ∃ e, manglerWithTypes env c m = .error e) := by
  refine ⟨?_, ?_, ?_, ?_⟩
  · intro env c m fixed hc hall hbad
    exact scalarWithTypes_error_of_check env c m fixed _ hc
      (checkConflicts_conflict fixed m hall hbad)
  · intro env c m fixed hc hall hbad
    exact manglerWithTypes_error_of_check env c m fixed _ hc
      (checkConflicts_conflict fixed m hall hbad)
  · intro env c m fixed hc hbad
    obtain ⟨e, he⟩ := checkConflicts_error_of_bad fixed m hbad
    exact ⟨e, scalarWithTypes_error_of_check env c m fixed e hc he⟩
  · intro env c m fixed hc hbad
    obtain ⟨e, he⟩ := checkConflicts_error_of_bad fixed m hbad
    exact ⟨e, manglerWithTypes_error_of_check env c m fixed e hc he⟩

/-- C2 witness: the amended statement at concrete conflicting inputs. -/
theorem C2_witness :
    scalarWithTypes env0
      { name := .str "fmax", arg_id_to_dtype := some [(.pos 0, some .int32)] }
      [(.pos 0, some .float64)] =
      .error (.loopyError "Overwriting a specialized function is illegal") ∧
    manglerWithTypes env0
      { name := .str "fmax", functionMangler := "m0",
        arg_id_to_dtype := some [(.pos 0, some .int32)] }
      [(.pos 0, some .float64)] =
      .error (.loopyError "Overwriting a specialized function is illegal") ∧
    (∃ e, scalarWithTypes env0
      { name := .str "fmax", arg_id_to_dtype := some [(.pos 0, some .int32)] }
      [(.pos 2, some .float64)] = .error e) := by
  refine ⟨?_, ?_, ?_⟩
  · exact C2_conflict_specialization.1 env0 _ _ [(.pos 0, some .int32)] rfl
      (by decide) (by decide)
  · exact C2_conflict_specialization.2.1 env0 _ _ [(.pos 0, some .int32)] rfl
      (by decide) (by decide)
  · exact C2_conflict_specialization.2.2.1 env0 _ _ [(.pos 0, some .int32)] rfl
      (by decide)

/-- C3: at the concrete first step of the claim's scenario — a fresh
ScalarCallable named foo specialized with the map from id 0 to int32,
over a kernel whose target resolves no identifiers — with_types fails
with the unknown-function LoopyError instead of succeeding. -/
theorem C3_counterexample :
    scalarWithTypes env0 (freshScalar "foo") [(.pos 0, some .int32)] =
      .error (.loopyError "Function not present within the namespace") := by
  decide

/-- C3 (amended): with_types on a fresh ScalarCallable named foo fails
with the unknown-function error whenever foo is not among the target's
function identifiers (foo matches no built-in resolution rule), so the
claim's first call already fails; moreover no merging of disjoint maps
can occur, because specializing any already-specialized ScalarCallable
with a map containing an id absent from its fixed map is itself an
error. -/
theorem C3_fresh_foo_fails :
    (∀ (env : KernelEnv) (m : DtypeMap), "foo" ∉ env.functionIdentifiers →
      scalarWithTypes env (freshScalar "foo") m =
        .error (.loopyError "Function not present within the namespace")) ∧
    (∀ (env : KernelEnv) (c : ScalarCallable) (m fixed : DtypeMap),
      c.arg_id_to_dtype = some fixed →
      (∃ p ∈ m, dictLookup fixed p.1 = none) →
      ∃ e, scalarWithTypes env c m = .error e) := by
  constructor
  · intro env m h
    simp [scalarWithTypes, freshScalar, h, Bind.bind, Except.bind, pure, Except.pure]
  · intro env c m fixed hc hmiss
    obtain ⟨p, hp, hnone⟩ := hmiss
    obtain ⟨e, he⟩ := checkConflicts_error_of_bad fixed m ⟨p, hp, by simp [hnone]⟩
    exact ⟨e, scalarWithTypes_error_of_check env c m fixed e hc he⟩

/-- C3 witness: the amended statement at concrete inputs. -/
theorem C3_witness :
    scalarWithTypes env0 (freshScalar "foo") [(.pos 1, some .int32)] =
      .error (.loopyError "Function not present within the namespace") ∧
    (∃ e, scalarWithTypes env0
      { name := .str "foo", arg_id_to_dtype := some [(.pos 0, some .int32)] }
      [(.pos 1, some .int32)] = .error e) :=
  ⟨C3_fresh_foo_fails.1 env0 _ (by decide),
   C3_fresh_foo_fails.2 env0 _ _ [(.pos 0, some .int32)] rfl ⟨(.pos 1, some .int32), by decide, by decide⟩⟩

theorem kwPosLoop_snd_eq (w : List String) :
    ∀ (args : List KArg) (rc wc : Int),
      (kwPosLoop w args rc wc).2 = (kwPosLoop w args rc wc).1.map (fun p => (p.2, p.1)) := by
  intro args
  induction args with
  | nil => intro rc wc; rfl
  | cons a rest ih =>
      intro rc wc
      by_cases h : a.name ∈ w <;> simp [kwPosLoop, h, ih]

theorem kwPosLoop_fst_names (w : List String) :
    ∀ (args : List KArg) (rc wc : Int),
      (kwPosLoop w args rc wc).1.map Prod.fst = args.map KArg.name := by
  intro args
  induction args with
  | nil => intro rc wc; rfl
  | cons a rest ih =>
      intro rc wc
      by_cases h : a.name ∈ w <;> simp [kwPosLoop, h, ih]

theorem kwPosLoop_id_range (w : List String) :
    ∀ (args : List KArg) (rc wc : Int) (p : String × Int),
      p ∈ (kwPosLoop w args rc wc).1 → rc ≤ p.2 ∨ p.2 ≤ wc := by
  intro args
  induction args with
  | nil => intro rc wc p hp; simp [kwPosLoop] at hp
  | cons a rest ih =>
      intro rc wc p hp
      by_cases h : a.name ∈ w
      · simp [kwPosLoop, h] at hp
        rcases hp with hp | hp
        · right; rw [hp]
        · rcases ih rc (wc - 1) p hp with h1 | h1
          · left; exact h1
          · right; omega
      · simp [kwPosLoop, h] at hp
        rcases hp with hp | hp
        · left; rw [hp]
        · rcases ih (rc + 1) wc p hp with h1 | h1
          · left; omega
          · right; exact h1

theorem kwPosLoop_ids_nodup (w : List String) :
    ∀ (args : List KArg) (rc wc : Int), wc < rc →
      ((kwPosLoop w args rc wc).1.map Prod.snd).Nodup := by
  intro args
  induction args with
  | nil => intro rc wc _; simp [kwPosLoop]
  | cons a rest ih =>
      intro rc wc hlt
      by_cases h : a.name ∈ w
      · simp [kwPosLoop, h]
        refine ⟨?_, ih rc (wc - 1) (by omega)⟩
        intro p hp
        have := kwPosLoop_id_range w rest rc (wc - 1) (p, wc) hp
        simp at this
        omega
      · simp [kwPosLoop, h]
        refine ⟨?_, ih (rc + 1) wc (by omega)⟩
        intro p hp
        have := kwPosLoop_id_range w rest (rc + 1) wc (p, rc) hp
        simp at this
        omega

theorem kwPosLoop_sign (w : List String) :
    ∀ (args : List KArg) (rc wc : Int) (p : String × Int),
      p ∈ (kwPosLoop w args rc wc).1 →
      (p.1 ∈ w ∧ p.2 ≤ wc) ∨ (p.1 ∉ w ∧ rc ≤ p.2) := by
  intro args
  induction args with
  | nil => intro rc wc p hp; simp [kwPosLoop] at hp
  | cons a rest ih =>
      intro rc wc p hp
      by_cases h : a.name ∈ w
      · simp [kwPosLoop, h] at hp
        rcases hp with hp | hp
        · left; rw [hp]; exact ⟨h, le_refl wc⟩
        · rcases ih rc (wc - 1) p hp with ⟨h1, h2⟩ | ⟨h1, h2⟩
          · left; exact ⟨h1, by omega⟩
          · right; exact ⟨h1, h2⟩
      · simp [kwPosLoop, h] at hp
        rcases hp with hp | hp
        · right; rw [hp]; exact ⟨h, le_refl rc⟩
        · rcases ih (rc + 1) wc p hp with ⟨h1, h2⟩ | ⟨h1, h2⟩
          · left; exact ⟨h1, h2⟩
          · right; exact ⟨h1, by omega⟩

theorem dictLookup_swap {α β : Type} [DecidableEq α] [DecidableEq β] :
    ∀ (l : List (α × β)), (l.map Prod.fst).Nodup → (l.map Prod.snd).Nodup →
      ∀ a b, dictLookup l a = some b →
        dictLookup (l.map (fun p => (p.2, p.1))) b = some a := by
  intro l
  induction l with
  | nil => intro _ _ a b h; simp [dictLookup] at h
  | cons q rest ih =>
      rintro h1 h2 a b h
      obtain ⟨x, y⟩ := q
      rw [List.map_cons, List.nodup_cons] at h1 h2
      by_cases hx : x = a
      · simp [dictLookup, hx] at h
        simp [dictLookup, hx, h]
      · simp [dictLookup, hx] at h
        have hmem := dictLookup_mem rest a b h
        have hb : b ∈ rest.map Prod.snd := List.mem_map_of_mem Prod.snd hmem
        have hyb : y ≠ b := fun hc => h2.1 (by rw [hc]; exact hb)
        simp [dictLookup, hyb]
        exact ih h1.2 h2.2 a b h

theorem map_swap_swap {α β : Type} (l : List (α × β)) :
    (l.map (fun p => (p.2, p.1))).map (fun p => (p.2, p.1)) = l := by
  induction l with
  | nil => rfl
  | cons q rest ih => simp [ih]

theorem dictLookup_swap_iff {α β : Type} [DecidableEq α] [DecidableEq β]
    (l : List (α × β)) (h1 : (l.map Prod.fst).Nodup) (h2 : (l.map Prod.snd).Nodup)
    (a : α) (b : β) :
    dictLookup l a = some b ↔ dictLookup (l.map (fun p => (p.2, p.1))) b = some a := by
  constructor
  · exact dictLookup_swap l h1 h2 a b
  · intro h
    have h1' : ((l.map (fun p => (p.2, p.1))).map Prod.fst).Nodup := by
      have : (l.map (fun p => (p.2, p.1))).map Prod.fst = l.map Prod.snd := by
        simp [List.map_map]
      rw [this]; exact h2
    have h2' : ((l.map (fun p => (p.2, p.1))).map Prod.snd).Nodup := by
      have : (l.map (fun p => (p.2, p.1))).map Prod.snd = l.map Prod.fst := by
        simp [List.map_map]
      rw [this]; exact h1
    have := dictLookup_swap (l.map (fun p => (p.2, p.1))) h1' h2' b a h
    rwa [map_swap_swap] at this

/-- C6: the id resolver scans arguments in declaration order, giving
non-written names the read ids 0, 1, ... and written names the write
ids -1, -2, ...; whenever the kernel's argument names are distinct the
two emitted maps are mutually inverse (a name maps to an id exactly
when the id maps back to that name), inputs receive non-negative ids
and outputs negative ones; the resolver is a pure function of the
kernel, so re-running it reproduces the same maps, and on the concrete
kernel with scalar input K, array input u and written array lap it
yields K to 0, u to 1 and lap to -1. -/
theorem C6_id_resolver :
    (∀ k : SubKernel, (k.args.map KArg.name).Nodup →
      ∀ (n : String) (i : Int),
        dictLookup (getKwPosAssociation k).1 n = some i ↔
        dictLookup (getKwPosAssociation k).2 i = some n) ∧
    (∀ (k : SubKernel) (n : String) (i : Int),
      dictLookup (getKwPosAssociation k).1 n = some i →
      (n ∈ k.writtenVariables ∧ i < 0) ∨ (n ∉ k.writtenVariables ∧ 0 ≤ i)) ∧
    getKwPosAssociation exampleKernel =
      ([("K", 0), ("u", 1), ("lap", -1)], [(0, "K"), (1, "u"), (-1, "lap")]) := by
  refine ⟨?_, ?_, by decide⟩
  · intro k hnd n i
    have hfst : ((getKwPosAssociation k).1.map Prod.fst).Nodup := by
      simp only [getKwPosAssociation, kwPosLoop_fst_names]
      exact hnd
    have hsnd : ((getKwPosAssociation k).1.map Prod.snd).Nodup := by
      simp only [getKwPosAssociation]
      exact kwPosLoop_ids_nodup k.writtenVariables k.args 0 (-1) (by omega)
    have hswap : (getKwPosAssociation k).2 =
        (getKwPosAssociation k).1.map (fun p => (p.2, p.1)) := by
      simp only [getKwPosAssociation]
      exact kwPosLoop_snd_eq k.writtenVariables k.args 0 (-1)
    rw [hswap]
    exact dictLookup_swap_iff (getKwPosAssociation k).1 hfst hsnd n i
  · intro k n i h
    have hmem := dictLookup_mem _ _ _ h
    simp only [getKwPosAssociation] at hmem
    rcases kwPosLoop_sign k.writtenVariables k.args 0 (-1) (n, i) hmem with ⟨h1, h2⟩ | ⟨h1, h2⟩
    · exact Or.inl ⟨h1, by omega⟩
    · exact Or.inr ⟨h1, h2⟩

/-- C6 witness: the resolver's facts at the spec's concrete kernel. -/
theorem C6_witness :
    (dictLookup (getKwPosAssociation exampleKernel).1 "u" = some 1 ↔
      dictLookup (getKwPosAssociation exampleKernel).2 1 = some "u") ∧
    (("lap" ∈ exampleKernel.writtenVariables ∧ (-1 : Int) < 0) ∨
      ("lap" ∉ exampleKernel.writtenVariables ∧ (0 : Int) ≤ -1)) :=
  ⟨C6_id_resolver.1 exampleKernel (by decide) "u" 1,
   C6_id_resolver.2.1 exampleKernel "lap" (-1) (by decide)⟩

mutual

theorem changeName_empty_id (env : NameChangerEnv) (h1 : env.exprToNewNames = [])
    (h2 : env.oldSubstRules = []) : (e : Expr) → changeName env e = e
| .call fn params => by
    simp [changeName, h1, h2, dictLookup, changeNameList_empty_id env h1 h2 params]
| .evar s => rfl
| .lit n => rfl
| .add a b => by
    rw [changeName, changeName_empty_id env h1 h2 a, changeName_empty_id env h1 h2 b]

theorem changeNameList_empty_id (env : NameChangerEnv) (h1 : env.exprToNewNames = [])
    (h2 : env.oldSubstRules = []) : (l : List Expr) → changeNameList env l = l
| [] => rfl
| e :: rest => by
    rw [changeNameList, changeName_empty_id env h1 h2 e,
      changeNameList_empty_id env h1 h2 rest]

end

/-- C9: the call-site rewrite is the identity wherever nothing is
tracked — with an empty name map and no substitution rules it
reproduces every expression unchanged; a call whose callee is bound to
a substitution rule is routed to the substitution handler instead of
being renamed; a call not hit directly is retried against the name map
after substitution-rule expansion and renamed on a hit, with the
parameters recursed into; and with no hit at all the call is rebuilt
identically around the recursed parameters. -/
theorem C9_rewrite_pass :
    (∀ (env : NameChangerEnv) (e : Expr), env.exprToNewNames = [] →
      env.oldSubstRules = [] → changeName env e = e) ∧
    (∀ (env : NameChangerEnv) (fn : PyFunc) (params : List Expr),
      funcName fn ∈ env.oldSubstRules →
      changeName env (.call fn params) = env.mapSubstitution (funcName fn) params) ∧
    (∀ (env : NameChangerEnv) (fn : PyFunc) (params : List Expr) (n : FVar),
      funcName fn ∉ env.oldSubstRules →
      dictLookup env.exprToNewNames (.call fn params) = none →
      dictLookup env.exprToNewNames (env.substExpander (.call fn params)) = some n →
      changeName env (.call fn params) = .call (.scoped n) (changeNameList env params)) ∧
    (∀ (env : NameChangerEnv) (fn : PyFunc) (params : List Expr),
      funcName fn ∉ env.oldSubstRules →
      dictLookup env.exprToNewNames (.call fn params) = none →
      dictLookup env.exprToNewNames (env.substExpander (.call fn params)) = none →
      changeName env (.call fn params) = .call fn (changeNameList env params)) := by
  refine ⟨?_, ?_, ?_, ?_⟩
  · intro env e h1 h2
    exact changeName_empty_id env h1 h2 e
  · intro env fn params h
    simp [changeName, h]
  · intro env fn params n h h0 h1
    simp [changeName, h, h0, h1]
  · intro env fn params h h0 h1
    simp [changeName, h, h0, h1]

/-- C9 witness: the four rewrite facts at concrete environments and
expressions. -/
theorem C9_witness :
    changeName idEnv (.add (.evar "x") (.lit 2)) = .add (.evar "x") (.lit 2) ∧
    changeName substRuleEnv (.call (.variable "mysubst") [.lit 1]) =
      substRuleEnv.mapSubstitution "mysubst" [.lit 1] ∧
    changeName renameEnv (.call (.variable "g") [.lit 1]) =
      .call (.scoped (.var "g_0")) (changeNameList renameEnv [.lit 1]) ∧
    changeName renameEnv (.call (.variable "h") []) =
      .call (.variable "h") (changeNameList renameEnv []) :=
  ⟨C9_rewrite_pass.1 idEnv _ rfl rfl,
   C9_rewrite_pass.2.1 substRuleEnv (.variable "mysubst") [.lit 1] (by decide),
   C9_rewrite_pass.2.2.1 renameEnv (.variable "g") [.lit 1] (.var "g_0")
     (by decide) (by decide) (by decide),
   C9_rewrite_pass.2.2.2 renameEnv (.variable "h") [] (by decide) (by decide) (by decide)⟩

theorem digitChar_isDigit (d : Nat) (h : d < 10) : (Char.ofNat (48 + d)).isDigit = true := by
  interval_cases d <;> decide

theorem natDigitsAux_irrel :
    ∀ (n fuel fuel' : Nat), n < fuel → n < fuel' →
      natDigitsAux fuel n = natDigitsAux fuel' n := by
  intro n
  induction n using Nat.strong_induction_on with
  | _ n ih =>
      intro fuel fuel' h h'
      match fuel, fuel' with
      | f + 1, f' + 1 =>
        rw [natDigitsAux, natDigitsAux]
        by_cases h10 : n < 10
        · simp [h10]
        · simp [h10]
          have hdiv : n / 10 < n :=
            Nat.div_lt_self (Nat.lt_of_lt_of_le (by norm_num) (Nat.le_of_not_lt h10))
              (by norm_num)
          exact ih (n / 10) hdiv f f' (by omega) (by omega)

theorem natDigits_eq (n : Nat) : natDigits n =
    if n < 10 then [Char.ofNat (48 + n)]
    else natDigits (n / 10) ++ [Char.ofNat (48 + n % 10)] := by
  rw [natDigits, natDigitsAux]
  by_cases h10 : n < 10
  · simp [h10]
  · simp [h10, natDigits]
    have hdiv : n / 10 < n :=
      Nat.div_lt_self (Nat.lt_of_lt_of_le (by norm_num) (Nat.le_of_not_lt h10)) (by norm_num)
    exact natDigitsAux_irrel (n / 10) n (n / 10 + 1) hdiv (by omega)

theorem digitVal_digitChar (d : Nat) (h : d < 10) : digitVal (Char.ofNat (48 + d)) = d := by
  interval_cases d <;> decide

theorem natDigits_ne_nil (n : Nat) : natDigits n ≠ [] := by
  rw [natDigits_eq]
  split <;> simp

theorem natDigits_all_digit (n : Nat) : (natDigits n).all Char.isDigit = true := by
  induction n using Nat.strong_induction_on with
  | _ n ih =>
      rw [natDigits_eq]
      split
      · next h => simp [digitChar_isDigit n h]
      · next h =>
          have hdiv : n / 10 < n :=
            Nat.div_lt_self (Nat.lt_of_lt_of_le (by norm_num) (Nat.le_of_not_lt h)) (by norm_num)
          have hmod : n % 10 < 10 := Nat.mod_lt _ (by norm_num)
          simp [List.all_append, ih (n / 10) hdiv, digitChar_isDigit (n % 10) hmod]

theorem digitsToNat_append_one (l : List Char) (c : Char) :
    digitsToNat (l ++ [c]) = 10 * digitsToNat l + digitVal c := by
  simp [digitsToNat, List.foldl_append]

theorem digitsToNat_natDigits (n : Nat) : digitsToNat (natDigits n) = n := by
  induction n using Nat.strong_induction_on with
  | _ n ih =>
      rw [natDigits_eq]
      split
      · next h => simp [digitsToNat, digitVal_digitChar n h]
      · next h =>
          have hdiv : n / 10 < n :=
            Nat.div_lt_self (Nat.lt_of_lt_of_le (by norm_num) (Nat.le_of_not_lt h)) (by norm_num)
          have hmod : n % 10 < 10 := Nat.mod_lt _ (by norm_num)
          rw [digitsToNat_append_one, ih (n / 10) hdiv, digitVal_digitChar (n % 10) hmod]
          omega

theorem find_unique {f : Nat → Bool} :
    ∀ (l : List Nat) (p : Nat), p ∈ l → f p = true →
      (∀ q ∈ l, f q = true → q = p) → l.find? f = some p := by
  intro l
  induction l with
  | nil => intro p hp _ _; simp at hp
  | cons a rest ih =>
      intro p hp hf huniq
      by_cases ha : f a = true
      · have : a = p := huniq a (by simp) ha
        rw [List.find?_cons_of_pos _ ha, this]
      · rw [List.find?_cons_of_neg _ (by simpa using ha)]
        have hp' : p ∈ rest := by
          rcases List.mem_cons.mp hp with h | h
          · exact absurd (h ▸ hf) ha
          · exact h
        exact ih p hp' hf (fun q hq hfq => huniq q (List.mem_cons_of_mem _ hq) hfq)

theorem splitIndexed_append (base ds : List Char) (hb : base ≠ [])
    (hbw : base.all (fun c => !c.isWhitespace) = true) (hd : ds ≠ [])
    (hdd : ds.all Char.isDigit = true) :
    splitIndexed (base ++ '_' :: ds) = some (base, ds) := by
  have hdpos : 0 < ds.length := List.length_pos.mpr hd
  have hbpos : 0 < base.length := List.length_pos.mpr hb
  have hlen : (base ++ '_' :: ds).length = base.length + 1 + ds.length := by
    simp
    omega
  have hget : (base ++ '_' :: ds).getD base.length ' ' = '_' := by
    unfold List.getD
    rw [List.get?_append_right (le_refl base.length)]
    simp
  have htake : (base ++ '_' :: ds).take base.length = base := List.take_left base _
  have hdrop : (base ++ '_' :: ds).drop (base.length + 1) = ds := by
    have h1 : base ++ '_' :: ds = (base ++ ['_']) ++ ds := by simp
    have h2 : (base ++ ['_']).length = base.length + 1 := by simp
    rw [h1, ← h2, List.drop_left]
  have hp0 : isSplitPoint (base ++ '_' :: ds) base.length = true := by
    unfold isSplitPoint
    rw [hget, htake, hdrop, hlen]
    simp [hbpos, hbw, hdd]
    omega
  have huniq : ∀ q, isSplitPoint (base ++ '_' :: ds) q = true → q = base.length := by
    intro q hq
    unfold isSplitPoint at hq
    simp only [Bool.and_eq_true, decide_eq_true_eq] at hq
    obtain ⟨⟨⟨⟨hq1, hq2⟩, hq3⟩, _⟩, hq5⟩ := hq
    by_contra hne
    rcases Nat.lt_or_ge q base.length with hlt | hge
    · have hus : ((base ++ '_' :: ds).drop (q + 1)).get? (base.length - (q + 1)) =
          some '_' := by
        rw [List.get?_drop]
        have h9 : q + 1 + (base.length - (q + 1)) = base.length := by omega
        rw [h9, List.get?_append_right (le_refl base.length)]
        simp
      have hmem : '_' ∈ (base ++ '_' :: ds).drop (q + 1) := List.get?_mem hus
      have := List.all_eq_true.mp hq5 '_' hmem
      simp at this
    · have hgt : base.length < q := by omega
      have hqlt : q < (base ++ '_' :: ds).length := by omega
      have hgetq : (base ++ '_' :: ds).get? q = ds.get? (q - base.length - 1) := by
        rw [List.get?_append_right (by omega)]
        have h9 : q - base.length = (q - base.length - 1) + 1 := by omega
        rw [h9]
        simp
      have hlt2 : q - base.length - 1 < ds.length := by
        rw [hlen] at hqlt
        omega
      have hc : ds.get? (q - base.length - 1) =
          some (ds.get ⟨q - base.length - 1, hlt2⟩) := List.get?_eq_get hlt2
      have hcd : (ds.get ⟨q - base.length - 1, hlt2⟩).isDigit = true :=
        List.all_eq_true.mp hdd _ (List.get?_mem hc)
      have hgd : (base ++ '_' :: ds).getD q ' ' = ds.get ⟨q - base.length - 1, hlt2⟩ := by
        unfold List.getD
        rw [hgetq, hc]
        rfl
      have hceq : ds.get ⟨q - base.length - 1, hlt2⟩ = '_' := by
        rw [← hgd, hq3]
      rw [hceq] at hcd
      simp at hcd
  have hmem : base.length ∈ List.range (base ++ '_' :: ds).length := by
    rw [List.mem_range, hlen]
    omega
  rw [splitIndexed, find_unique (List.range (base ++ '_' :: ds).length) base.length hmem hp0
    (fun q _ hfq => huniq q hfq)]
  simp [htake, hdrop]

theorem splitIndexed_props (l alpha ds : List Char)
    (h : splitIndexed l = some (alpha, ds)) :
    alpha ≠ [] ∧ alpha.all (fun c => !c.isWhitespace) = true ∧
    ds ≠ [] ∧ ds.all Char.isDigit = true := by
  rw [splitIndexed] at h
  cases hf : (List.range l.length).find? (fun p => isSplitPoint l p) with
  | none => rw [hf] at h; simp at h
  | some p =>
      rw [hf] at h
      simp at h
      obtain ⟨h1, h2⟩ := h
      have hsp := List.find?_some hf
      unfold isSplitPoint at hsp
      simp only [Bool.and_eq_true, decide_eq_true_eq] at hsp
      obtain ⟨⟨⟨⟨hp1, hp2⟩, _⟩, hp4⟩, hp5⟩ := hsp
      refine ⟨?_, ?_, ?_, ?_⟩
      · rw [← h1]
        intro hc
        rcases List.take_eq_nil_iff.mp hc with hc | hc
        · omega
        · rw [hc] at hp2
          simp at hp2
      · rw [← h1]; exact hp4
      · rw [← h2]
        intro hc
        have := List.drop_eq_nil_iff_le.mp hc
        omega
      · rw [← h2]; exact hp5

theorem numSuffix_next (v : FVar) (n : Nat) (h : numSuffix v = some n) :
    ∃ w, nextIndexedVariable v = .ok w ∧ numSuffix w = some (n + 1) := by
  cases v with
  | argExt op => simp [numSuffix] at h
  | var name =>
      simp [numSuffix, Option.map_eq_some'] at h
      obtain ⟨alpha, ds, hsplit, hn⟩ := h
      obtain ⟨hane, haw, hdne, hdd⟩ := splitIndexed_props _ _ _ hsplit
      refine ⟨.var (String.mk (alpha ++ '_' :: natDigits (digitsToNat ds + 1))), ?_, ?_⟩
      · simp [nextIndexedVariable, hsplit]
      · simp only [numSuffix]
        rw [splitIndexed_append alpha _ hane haw (natDigits_ne_nil _)
          (natDigits_all_digit _)]
        simp [digitsToNat_natDigits, hn]

theorem probeLoop_not_mem :
    ∀ (fuel : Nat) (names : List (FVar × Callable)) (v u : FVar),
      probeLoop fuel names v = .ok u → u.isArgExt = false → dictLookup names u = none := by
  intro fuel
  induction fuel with
  | zero => intro names v u h _; simp [probeLoop] at h
  | succ fuel ih =>
      intro names v u h hu
      rw [probeLoop] at h
      by_cases hc : ((dictLookup names v).isSome && !v.isArgExt) = true
      · rw [if_pos hc] at h
        rw [except_bind_ok] at h
        obtain ⟨v', _, hrec⟩ := h
        exact ih names v' u hrec hu
      · rw [if_neg hc] at h
        simp at h
        subst h
        simp [hu] at hc
        exact Option.not_isSome_iff_eq_none.mp (by simp [hc])

theorem probeLoop_argExt (fuel : Nat) (names : List (FVar × Callable)) (op : ArgExtOp) :
    probeLoop (fuel + 1) names (.argExt op) = .ok (.argExt op) := by
  rw [probeLoop]
  simp [FVar.isArgExt]

/-- C5: the renamer's candidate rule is as claimed — a name of the form
alpha_digits steps to alpha_(digits+1), a non-matching name gains the
suffix _0 (just 0 when it already ends in an underscore); the candidate
sequence is produced by a pure function and its numeric suffix strictly
increases, each step adding one; whenever the probe loop returns a
non-operator name, that name is absent from the probed name set at
return time; and ArgExtOp operator identities are exempt — the probe
returns them unchanged without consulting the set. -/
theorem C5_renamer :
    (∀ base ds : List Char, base ≠ [] →
      base.all (fun c => !c.isWhitespace) = true → ds ≠ [] →
      ds.all Char.isDigit = true →
      nextIndexedVariable (.var (String.mk (base ++ '_' :: ds))) =
        .ok (.var (String.mk (base ++ '_' :: natDigits (digitsToNat ds + 1))))) ∧
    (∀ (name : String) (ch : Char), splitIndexed name.data = none →
      name.data.getLast? = some ch →
      nextIndexedVariable (.var name) =
        .ok (.var (if ch = '_' then name ++ "0" else name ++ "_0"))) ∧
    (∀ (v : FVar) (n : Nat), numSuffix v = some n →
      ∃ w, nextIndexedVariable v = .ok w ∧ numSuffix w = some (n + 1)) ∧
    (∀ (fuel : Nat) (names : List (FVar × Callable)) (v u : FVar),
      probeLoop fuel names v = .ok u → u.isArgExt = false →
      dictLookup names u = none) ∧
    (∀ (fuel : Nat) (names : List (FVar × Callable)) (op : ArgExtOp),
      probeLoop (fuel + 1) names (.argExt op) = .ok (.argExt op) ∧
      nextIndexedVariable (.argExt op) = .ok (.argExt op)) := by
  refine ⟨?_, ?_, numSuffix_next, probeLoop_not_mem, ?_⟩
  · intro base ds hb hbw hd hdd
    have hdata : (String.mk (base ++ '_' :: ds)).data = base ++ '_' :: ds := rfl
    simp [nextIndexedVariable, hdata, splitIndexed_append base ds hb hbw hd hdd]
  · intro name ch hnone hlast
    simp [nextIndexedVariable, hnone, hlast]
  · intro fuel names op
    exact ⟨probeLoop_argExt fuel names op, rfl⟩

/-- C5 witness: the renamer facts at concrete names, a concrete probed
set, and a concrete operator. -/
theorem C5_witness :
    nextIndexedVariable (.var (String.mk (['f', 'o', 'o'] ++ '_' :: ['7']))) =
      .ok (.var (String.mk (['f', 'o', 'o'] ++ '_' ::
        natDigits (digitsToNat ['7'] + 1)))) ∧
    nextIndexedVariable (.var "sin") =
      .ok (.var (if 'n' = '_' then "sin" ++ "0" else "sin" ++ "_0")) ∧
    (∃ w, nextIndexedVariable (.var "a_1") = .ok w ∧ numSuffix w = some 2) ∧
    dictLookup [(FVar.var "x_0", sincosCallable)] (FVar.var "x_1") = none ∧
    probeLoop 1 [] (.argExt ⟨"max"⟩) = .ok (.argExt ⟨"max"⟩) :=
  ⟨C5_renamer.1 ['f', 'o', 'o'] ['7'] (by decide) (by decide) (by decide) (by decide),
   C5_renamer.2.1 "sin" 'n' (by decide) (by decide),
   C5_renamer.2.2.1 (.var "a_1") 1 (by decide),
   C5_renamer.2.2.2.1 2 [(FVar.var "x_0", sincosCallable)] (.var "x_0") (.var "x_1")
     (by decide) rfl,
   (C5_renamer.2.2.2.2 0 [] ⟨"max"⟩).1⟩

theorem dictLookup_dictInsert_cases {κ ν : Type} [DecidableEq κ] (l : List (κ × ν))
    (k k₀ : κ) (v : ν) :
    dictLookup (dictInsert l k v) k₀ = if k = k₀ then some v else dictLookup l k₀ := by
  by_cases h : k = k₀
  · subst h
    simp [dictLookup_dictInsert_self]
  · simp [h, dictLookup_dictInsert_ne l k k₀ v h]

theorem nextIndexedVariable_var (s : String) (w : FVar)
    (h : nextIndexedVariable (.var s) = .ok w) : ∃ t, w = .var t := by
  simp only [nextIndexedVariable] at h
  split at h
  · next alpha ds _ => exact ⟨_, (Except.ok.inj h).symm⟩
  · split at h
    · cases h
    · exact ⟨_, (Except.ok.inj h).symm⟩

theorem probeLoop_var :
    ∀ (fuel : Nat) (names : List (FVar × Callable)) (v u : FVar),
      probeLoop fuel names v = .ok u → (∃ s, v = .var s) → ∃ t, u = .var t := by
  intro fuel
  induction fuel with
  | zero => intro names v u h _; simp [probeLoop] at h
  | succ fuel ih =>
      intro names v u h hv
      rw [probeLoop] at h
      by_cases hc : ((dictLookup names v).isSome && !v.isArgExt) = true
      · rw [if_pos hc] at h
        rw [except_bind_ok] at h
        obtain ⟨v', hv', hrec⟩ := h
        obtain ⟨s, hs⟩ := hv
        subst hs
        obtain ⟨t, ht⟩ := nextIndexedVariable_var s v' hv'
        exact ih names v' u hrec ⟨t, ht⟩
      · rw [if_neg hc] at h
        simp at h
        subst h
        exact hv

theorem registerStep_facts (fuel : Nat) (st : RegState) (pc : Expr) (c : Callable)
    (st' : RegState) (h : registerStep fuel st pc c = .ok st')
    (hk : c.isKernelC = false) (hpc : ∃ s, callFunction pc = .ok (.var s)) :
    (∀ c₀ u₀, dictLookup st.scopedFunctionsToNames c₀ = some u₀ →
      dictLookup st'.scopedFunctionsToNames c₀ = some u₀) ∧
    (∃ u, dictLookup st'.scopedFunctionsToNames c = some u ∧
      dictLookup st'.pymbolicCallsToNewNames pc = some u) ∧
    (∀ p : Expr, p ≠ pc →
      dictLookup st'.pymbolicCallsToNewNames p = dictLookup st.pymbolicCallsToNewNames p) ∧
    (RegInv st → RegInv st') := by
  by_cases hfound : (dictLookup st.scopedFunctionsToNames c).isSome = true
  · obtain ⟨u, hu⟩ := Option.isSome_iff_exists.mp hfound
    simp only [registerStep] at h
    rw [if_pos hfound] at h
    simp only [Bind.bind, Except.bind, pure, Except.pure] at h
    rw [hu] at h
    simp only [Except.ok.injEq] at h
    subst h
    refine ⟨fun c₀ u₀ hh => hh, ⟨u, hu, ?_⟩, ?_, fun hh => hh⟩
    · simp [dictLookup_dictInsert_self]
    · intro p hp
      simp [dictLookup_dictInsert_ne _ pc p _ (fun hh => hp hh.symm)]
  · have hnone : dictLookup st.scopedFunctionsToNames c = none :=
      Option.not_isSome_iff_eq_none.mp (by simp [hfound])
    obtain ⟨s, hs⟩ := hpc
    simp only [registerStep] at h
    rw [if_neg hfound] at h
    rw [except_bind_ok] at h
    obtain ⟨stc, hinner, hcont⟩ := h
    rw [except_bind_ok] at hinner
    obtain ⟨f, hf, hinner⟩ := hinner
    rw [hs] at hf
    have hf' : f = .var s := (Except.ok.inj hf).symm
    subst hf'
    rw [except_bind_ok] at hinner
    obtain ⟨u0, hu0, hinner⟩ := hinner
    rw [except_bind_ok] at hinner
    obtain ⟨u, hu, hinner⟩ := hinner
    have huvar : ∃ t, u = .var t := by
      obtain ⟨t0, ht0⟩ := nextIndexedVariable_var s u0 hu0
      exact probeLoop_var fuel st.scopedNamesToFunctions u0 u hu ⟨t0, ht0⟩
    have hufresh : dictLookup st.scopedNamesToFunctions u = none := by
      obtain ⟨t, ht⟩ := huvar
      exact probeLoop_not_mem fuel st.scopedNamesToFunctions u0 u hu (by rw [ht]; rfl)
    cases c with
    | kernelC k => simp [Callable.isKernelC] at hk
    | scalarC sc =>
        simp only [Bind.bind, Except.bind, pure, Except.pure, Except.ok.injEq] at hinner
        subst hinner
        simp only [dictLookup_dictInsert_self] at hcont
        simp only [pure, Except.pure, Except.ok.injEq] at hcont
        subst hcont
        refine ⟨?_, ⟨u, ?_, ?_⟩, ?_, ?_⟩
        · intro c₀ u₀ hh
          have hne : Callable.scalarC sc ≠ c₀ := by
            intro he
            rw [← he] at hh
            rw [hnone] at hh
            cases hh
          simp [dictLookup_dictInsert_ne _ _ _ _ hne, hh]
        · simp [dictLookup_dictInsert_self]
        · simp [dictLookup_dictInsert_self]
        · intro p hp
          simp [dictLookup_dictInsert_ne _ pc p _ (fun hh => hp hh.symm)]
        · rintro ⟨hA, hB⟩
          constructor
          · intro c₀ u₀ hh
            rw [dictLookup_dictInsert_cases] at hh
            by_cases hc0 : Callable.scalarC sc = c₀
            · rw [if_pos hc0] at hh
              have huu : u₀ = u := (Option.some.inj hh).symm
              subst huu
              simp [dictLookup_dictInsert_self]
            · rw [if_neg hc0] at hh
              have := hA c₀ u₀ hh
              rw [dictLookup_dictInsert_cases]
              by_cases hc1 : u = u₀
              · simp [hc1]
              · simp [hc1, this]
          · intro c₁ c₂ u' h1 h2
            rw [dictLookup_dictInsert_cases] at h1 h2
            by_cases e1 : Callable.scalarC sc = c₁ <;> by_cases e2 : Callable.scalarC sc = c₂
            · rw [← e1, ← e2]
            · rw [if_pos e1] at h1
              rw [if_neg e2] at h2
              have hu' : u' = u := (Option.some.inj h1).symm
              subst hu'
              have := hA c₂ u' h2
              rw [hufresh] at this
              cases this
            · rw [if_neg e1] at h1
              rw [if_pos e2] at h2
              have hu' : u' = u := (Option.some.inj h2).symm
              subst hu'
              have := hA c₁ u' h1
              rw [hufresh] at this
              cases this
            · rw [if_neg e1] at h1
              rw [if_neg e2] at h2
              exact hB c₁ c₂ u' h1 h2
    | manglerC mc =>
        simp only [Bind.bind, Except.bind, pure, Except.pure, Except.ok.injEq] at hinner
        subst hinner
        simp only [dictLookup_dictInsert_self] at hcont
        simp only [pure, Except.pure, Except.ok.injEq] at hcont
        subst hcont
        refine ⟨?_, ⟨u, ?_, ?_⟩, ?_, ?_⟩
        · intro c₀ u₀ hh
          have hne : Callable.manglerC mc ≠ c₀ := by
            intro he
            rw [← he] at hh
            rw [hnone] at hh
            cases hh
          simp [dictLookup_dictInsert_ne _ _ _ _ hne, hh]
        · simp [dictLookup_dictInsert_self]
        · simp [dictLookup_dictInsert_self]
        · intro p hp
          simp [dictLookup_dictInsert_ne _ pc p _ (fun hh => hp hh.symm)]
        · rintro ⟨hA, hB⟩
          constructor
          · intro c₀ u₀ hh
            rw [dictLookup_dictInsert_cases] at hh
            by_cases hc0 : Callable.manglerC mc = c₀
            · rw [if_pos hc0] at hh
              have huu : u₀ = u := (Option.some.inj hh).symm
              subst huu
              simp [dictLookup_dictInsert_self]
            · rw [if_neg hc0] at hh
              have := hA c₀ u₀ hh
              rw [dictLookup_dictInsert_cases]
              by_cases hc1 : u = u₀
              · simp [hc1]
              · simp [hc1, this]
          · intro c₁ c₂ u' h1 h2
            rw [dictLookup_dictInsert_cases] at h1 h2
            by_cases e1 : Callable.manglerC mc = c₁ <;> by_cases e2 : Callable.manglerC mc = c₂
            · rw [← e1, ← e2]
            · rw [if_pos e1] at h1
              rw [if_neg e2] at h2
              have hu' : u' = u := (Option.some.inj h1).symm
              subst hu'
              have := hA c₂ u' h2
              rw [hufresh] at this
              cases this
            · rw [if_neg e1] at h1
              rw [if_pos e2] at h2
              have hu' : u' = u := (Option.some.inj h2).symm
              subst hu'
              have := hA c₁ u' h1
              rw [hufresh] at this
              cases this
            · rw [if_neg e1] at h1
              rw [if_neg e2] at h2
              exact hB c₁ c₂ u' h1 h2

theorem registerFold_facts :
    ∀ (items : List (Expr × Callable)) (fuel : Nat) (st₀ st : RegState),
      List.foldlM (fun st p => registerStep fuel st p.1 p.2) st₀ items = .ok st →
      (∀ p ∈ items, (p.2 : Callable).isKernelC = false) →
      (∀ p ∈ items, ∃ s, callFunction p.1 = .ok (.var s)) →
      (items.map Prod.fst).Nodup →
      RegInv st₀ →
      RegInv st ∧
      (∀ c₀ u₀, dictLookup st₀.scopedFunctionsToNames c₀ = some u₀ →
        dictLookup st.scopedFunctionsToNames c₀ = some u₀) ∧
      (∀ p ∈ items, ∃ u, dictLookup st.scopedFunctionsToNames p.2 = some u ∧
        dictLookup st.pymbolicCallsToNewNames p.1 = some u) ∧
      (∀ p : Expr, p ∉ items.map Prod.fst →
        dictLookup st.pymbolicCallsToNewNames p =
          dictLookup st₀.pymbolicCallsToNewNames p) := by
  intro items
  induction items with
  | nil =>
      intro fuel st₀ st h _ _ _ hinv
      simp [List.foldlM, pure, Except.pure] at h
      subst h
      exact ⟨hinv, fun _ _ hh => hh, by simp, fun _ _ => rfl⟩
  | cons q rest ih =>
      intro fuel st₀ st h hk hpc hnd hinv
      rw [List.foldlM_cons, except_bind_ok] at h
      obtain ⟨st₁, hstep, hrest⟩ := h
      obtain ⟨hmono1, ⟨u, hu1, hu2⟩, hother, hinvp⟩ :=
        registerStep_facts fuel st₀ q.1 q.2 st₁ hstep (hk q (by simp)) (hpc q (by simp))
      rw [List.map_cons, List.nodup_cons] at hnd
      obtain ⟨hq1, hnd'⟩ := hnd
      obtain ⟨hinvf, hmono2, hitems, hpres⟩ :=
        ih fuel st₁ st hrest (fun p hp => hk p (List.mem_cons_of_mem _ hp))
          (fun p hp => hpc p (List.mem_cons_of_mem _ hp)) hnd' (hinvp hinv)
      refine ⟨hinvf, ?_, ?_, ?_⟩
      · intro c₀ u₀ hh
        exact hmono2 c₀ u₀ (hmono1 c₀ u₀ hh)
      · intro p hp
        rw [List.mem_cons] at hp
        rcases hp with hp | hp
        · subst hp
          exact ⟨u, hmono2 _ u hu1, by rw [hpres p.1 hq1]; exact hu2⟩
        · exact hitems p hp
      · intro p hnp
        rw [List.map_cons, List.mem_cons] at hnp
        push_neg at hnp
        rw [hpres p hnp.2, hother p hnp.1]

/-- C4: at the concrete input of two call sites carrying the same
CallableKernel value, registration assigns the two sites distinct
specialized names (callee_0 and callee_1), because the registry stores
the name_in_target-updated copy of a CallableKernel rather than the
looked-up value — refuting the claim that structurally equal
specialized Callables always share a binding name. -/
theorem C4_counterexample :
    (registerNames 8 []
        [(callSiteA, .kernelC calleeCallable), (callSiteB, .kernelC calleeCallable)]).toOption.map
      (fun st => (dictLookup st.pymbolicCallsToNewNames callSiteA,
        dictLookup st.pymbolicCallsToNewNames callSiteB)) =
      some (some (.var "callee_0"), some (.var "callee_1")) ∧
    (FVar.var "callee_0") ≠ .var "callee_1" := by
  constructor
  · decide
  · decide

/-- C4 (amended): for call sites whose callables are not
CallableKernels and whose callees are plain variables, registration
deduplicates by value equality of the callable: every processed call
site receives a name, and two call sites receive the same name exactly
when their callable values are equal; for CallableKernels the stored
registry key is the name_in_target-updated copy, so structurally equal
CallableKernel call sites receive distinct names (and ArgExtOp-named
callables bypass the freshness probe). -/
theorem C4_dedup_by_value (fuel : Nat) (sf : List (FVar × Callable))
    (items : List (Expr × Callable)) (st : RegState)
    (h : registerNames fuel sf items = .ok st)
    (hk : ∀ p ∈ items, (p.2 : Callable).isKernelC = false)
    (hpc : ∀ p ∈ items, ∃ s, callFunction p.1 = .ok (.var s))
    (hnd : (items.map Prod.fst).Nodup) :
    ∀ pc₁ c₁ pc₂ c₂, (pc₁, c₁) ∈ items → (pc₂, c₂) ∈ items →
      ∃ n₁ n₂, dictLookup st.pymbolicCallsToNewNames pc₁ = some n₁ ∧
        dictLookup st.pymbolicCallsToNewNames pc₂ = some n₂ ∧ (n₁ = n₂ ↔ c₁ = c₂) := by
  have hinv0 : RegInv (⟨sf, [], []⟩ : RegState) := by
    constructor
    · intro c u hh
      simp [dictLookup] at hh
    · intro c₁ c₂ u h1 h2
      simp [dictLookup] at h1
  obtain ⟨hinvf, _, hitems, _⟩ := registerFold_facts items fuel _ st h hk hpc hnd hinv0
  intro pc₁ c₁ pc₂ c₂ h1 h2
  obtain ⟨u₁, hs1, hp1⟩ := hitems (pc₁, c₁) h1
  obtain ⟨u₂, hs2, hp2⟩ := hitems (pc₂, c₂) h2
  refine ⟨u₁, u₂, hp1, hp2, ?_, ?_⟩
  · intro he
    subst he
    exact hinvf.2 c₁ c₂ u₁ hs1 hs2
  · intro he
    subst he
    rw [hs1] at hs2
    exact Option.some.inj hs2

/-- C4 witness: the amended statement at two call sites sharing one
ScalarCallable value. -/
theorem C4_witness :
    ∃ (st : RegState) (n₁ n₂ : FVar),
      registerNames 8 [] [(callSiteA, sincosCallable), (callSiteB, sincosCallable)] =
        .ok st ∧
      dictLookup st.pymbolicCallsToNewNames callSiteA = some n₁ ∧
      dictLookup st.pymbolicCallsToNewNames callSiteB = some n₂ ∧
      (n₁ = n₂ ↔ sincosCallable = sincosCallable) := by
  have hok : (registerNames 8 []
      [(callSiteA, sincosCallable), (callSiteB, sincosCallable)]).toOption.isSome = true := by
    decide
  cases hst : registerNames 8 [] [(callSiteA, sincosCallable), (callSiteB, sincosCallable)] with
  | error e => rw [hst] at hok; cases hok
  | ok st =>
      obtain ⟨n₁, n₂, h1, h2, h3⟩ :=
        C4_dedup_by_value 8 [] _ st hst (by decide)
          (by
            intro p hp
            rw [List.mem_cons, List.mem_cons] at hp
            rcases hp with hp | hp | hp
            · rw [hp]; exact ⟨"callee", rfl⟩
            · rw [hp]; exact ⟨"callee", rfl⟩
            · simp at hp)
          (by decide) callSiteA sincosCallable callSiteB sincosCallable
          (by decide) (by decide)
      exact ⟨st, n₁, n₂, rfl, h1, h2, h3⟩

end Loopy
